import Mathlib

/-!
Verification of the `sql_query_builder` SELECT builder: a shallow embedding of
`src/select/select.rs` together with models (from the specification) of the
`behavior`, `fmt` and `structure` modules that the crate uses but whose sources
are not part of this tree.
-/

namespace SqlQueryBuilder

/-- Modelled from the spec: the closed set of clause identifiers used as
raw-anchor keys and to fix the rendering order (the `structure` module with
`SelectClause` is not under src/). The feature-gated set-operator clauses are
omitted; `With` is kept as an anchor key but never populated here. -/
inductive SelectClause where
  | Raw
  | With
  | Select
  | From
  | Join
  | Where
  | GroupBy
  | Having
  | OrderBy
  | Limit
  | Offset
deriving DecidableEq

/-- Shallow embedding of the state of `SelectBuilder` (the `structure` module is
not under src/; fields are those read and written by `src/select/select.rs`,
with the feature-gated `_with`, `_union`, `_intersect`, `_except` omitted).
Sequence clauses hold ordered fragment lists; `_limit` and `_offset` hold a
single overwritable scalar, empty string meaning never set. -/
structure SelectBuilder where
  _select : List String := []
  _from : List String := []
  _join : List String := []
  _where : List String := []
  _group_by : List String := []
  _having : List String := []
  _order_by : List String := []
  _raw : List String := []
  _raw_before : List (SelectClause × String) := []
  _raw_after : List (SelectClause × String) := []
  _limit : String := ""
  _offset : String := ""
deriving DecidableEq

/-- Model of Rust `str::trim` on the character list: drop leading and trailing
whitespace (kernel-executable, unlike `String.trim`). -/
def strTrim (s : String) : String :=
  ⟨((s.data.dropWhile Char.isWhitespace).reverse.dropWhile Char.isWhitespace).reverse⟩

/-- Modelled from the spec: `push_unique(sequence, fragment)`: trim input; if an
equal trimmed value already exists in the target sequence, drop it (idempotent
no-op); else append at the end. (The `behavior` module is not under src/.) -/
def push_unique (list : List String) (value : String) : List String :=
  if strTrim value ∈ list then list else list ++ [strTrim value]

/-- Embedding of `SelectBuilder::new`: the default (all clauses empty). -/
def SelectBuilder.new : SelectBuilder := {}

/-- Embedding of `SelectBuilder::where_clause`. -/
def SelectBuilder.where_clause (b : SelectBuilder) (condition : String) : SelectBuilder :=
  { b with _where := push_unique b._where (strTrim condition) }

/-- Embedding of `SelectBuilder::and`: delegates to `where_clause`. -/
def SelectBuilder.and (b : SelectBuilder) (condition : String) : SelectBuilder :=
  b.where_clause condition

/-- Embedding of `SelectBuilder::select`. -/
def SelectBuilder.select (b : SelectBuilder) (column : String) : SelectBuilder :=
  { b with _select := push_unique b._select (strTrim column) }

/-- Embedding of `SelectBuilder::from`. -/
def SelectBuilder.«from» (b : SelectBuilder) (tables : String) : SelectBuilder :=
  { b with _from := push_unique b._from (strTrim tables) }

/-- Embedding of `SelectBuilder::group_by`. -/
def SelectBuilder.group_by (b : SelectBuilder) (column : String) : SelectBuilder :=
  { b with _group_by := push_unique b._group_by (strTrim column) }

/-- Embedding of `SelectBuilder::having`. -/
def SelectBuilder.having (b : SelectBuilder) (condition : String) : SelectBuilder :=
  { b with _having := push_unique b._having (strTrim condition) }

/-- Embedding of `SelectBuilder::order_by`. -/
def SelectBuilder.order_by (b : SelectBuilder) (column : String) : SelectBuilder :=
  { b with _order_by := push_unique b._order_by (strTrim column) }

/-- Embedding of `SelectBuilder::cross_join`: composes the keyword into the
fragment text before the unique push. -/
def SelectBuilder.cross_join (b : SelectBuilder) (table : String) : SelectBuilder :=
  let table := strTrim table
  let table := "CROSS JOIN " ++ table
  { b with _join := push_unique b._join table }

/-- Embedding of `SelectBuilder::inner_join`. -/
def SelectBuilder.inner_join (b : SelectBuilder) (table : String) : SelectBuilder :=
  let table := strTrim table
  let table := "INNER JOIN " ++ table
  { b with _join := push_unique b._join table }

/-- Embedding of `SelectBuilder::left_join`. -/
def SelectBuilder.left_join (b : SelectBuilder) (table : String) : SelectBuilder :=
  let table := strTrim table
  let table := "LEFT JOIN " ++ table
  { b with _join := push_unique b._join table }

/-- Embedding of `SelectBuilder::right_join`. -/
def SelectBuilder.right_join (b : SelectBuilder) (table : String) : SelectBuilder :=
  let table := strTrim table
  let table := "RIGHT JOIN " ++ table
  { b with _join := push_unique b._join table }

/-- Embedding of `SelectBuilder::limit`: scalar overwrite of the trimmed value. -/
def SelectBuilder.limit (b : SelectBuilder) (num : String) : SelectBuilder :=
  { b with _limit := (strTrim num) }

/-- Embedding of `SelectBuilder::offset`: scalar overwrite of the trimmed value. -/
def SelectBuilder.offset (b : SelectBuilder) (num : String) : SelectBuilder :=
  { b with _offset := (strTrim num) }

/-- Embedding of `SelectBuilder::raw`: unique push onto the raw-prefix clause. -/
def SelectBuilder.raw (b : SelectBuilder) (raw_sql : String) : SelectBuilder :=
  { b with _raw := push_unique b._raw (strTrim raw_sql) }

/-- Embedding of `SelectBuilder::raw_before`: plain (non-deduped) append of the
(clause, trimmed text) pair. -/
def SelectBuilder.raw_before (b : SelectBuilder) (clause : SelectClause) (raw_sql : String) :
    SelectBuilder :=
  { b with _raw_before := b._raw_before ++ [(clause, (strTrim raw_sql))] }

/-- Embedding of `SelectBuilder::raw_after`: plain (non-deduped) append of the
(clause, trimmed text) pair. -/
def SelectBuilder.raw_after (b : SelectBuilder) (clause : SelectClause) (raw_sql : String) :
    SelectBuilder :=
  { b with _raw_after := b._raw_after ++ [(clause, (strTrim raw_sql))] }

/-- Join a list of strings with a separator (the shape of joining used by the
modelled formatter). -/
def joinSep (sep : String) : List String → String
  | [] => ""
  | [x] => x
  | x :: xs => x ++ sep ++ joinSep sep xs

/-- Modelled from the spec: the two formatter modes (`fmt::Formatter::one_line`
and `fmt::Formatter::multi_line`; the `fmt` module is not under src/). -/
inductive Formatter where
  | one_line
  | multi_line
deriving DecidableEq

/-- Modelled from the spec: in one-line mode, non-empty blocks are joined by
single spaces; in multi-line mode each clause starts its own line. -/
def Formatter.separator : Formatter → String
  | .one_line => " "
  | .multi_line => "\n"

/-- Raw texts anchored before the given clause, in call order. -/
def rawBeforeOf (b : SelectBuilder) (c : SelectClause) : List String :=
  (b._raw_before.filter (fun p => p.1 == c)).map Prod.snd

/-- Raw texts anchored after the given clause, in call order. -/
def rawAfterOf (b : SelectBuilder) (c : SelectClause) : List String :=
  (b._raw_after.filter (fun p => p.1 == c)).map Prod.snd

/-- Modelled from the spec: the body block of each clause. Intra-clause
fragments are joined by a comma for SELECT and FROM and GROUP BY and ORDER BY,
by the literal keyword AND for WHERE and HAVING, and each JOIN entry is
self-contained; LIMIT and OFFSET render only if their scalar was ever set;
empty clauses render nothing. -/
def clauseBody (b : SelectBuilder) : SelectClause → List String
  | .Raw => b._raw
  | .With => []
  | .Select => if b._select = [] then [] else ["SELECT " ++ joinSep ", " b._select]
  | .From => if b._from = [] then [] else ["FROM " ++ joinSep ", " b._from]
  | .Join => b._join
  | .Where => if b._where = [] then [] else ["WHERE " ++ joinSep " AND " b._where]
  | .GroupBy => if b._group_by = [] then [] else ["GROUP BY " ++ joinSep ", " b._group_by]
  | .Having => if b._having = [] then [] else ["HAVING " ++ joinSep " AND " b._having]
  | .OrderBy => if b._order_by = [] then [] else ["ORDER BY " ++ joinSep ", " b._order_by]
  | .Limit => if b._limit = "" then [] else ["LIMIT " ++ b._limit]
  | .Offset => if b._offset = "" then [] else ["OFFSET " ++ b._offset]

/-- Modelled from the spec: the fixed clause rendering order (raw-prefix, WITH,
SELECT, FROM, JOIN, WHERE, GROUP BY, HAVING, ORDER BY, LIMIT, OFFSET). -/
def clauseOrder : List SelectClause :=
  [.Raw, .With, .Select, .From, .Join, .Where, .GroupBy, .Having, .OrderBy, .Limit, .Offset]

/-- Modelled from the spec: the rendered blocks in order; immediately before a
clause its raw-before anchors, immediately after it its raw-after anchors,
independent of clause emptiness. -/
def renderParts (b : SelectBuilder) : List String :=
  clauseOrder.flatMap fun c => rawBeforeOf b c ++ clauseBody b c ++ rawAfterOf b c

/-- Modelled from the spec: `Concat::concat` renders the accumulated state in
fixed clause order, blocks joined by the mode separator (the `behavior` module
with the `Concat` trait is not under src/). -/
def SelectBuilder.concat (b : SelectBuilder) (fmts : Formatter) : String :=
  joinSep fmts.separator (renderParts b)

/-- Embedding of `SelectBuilder::as_string`: the one-line render. -/
def SelectBuilder.as_string (b : SelectBuilder) : String :=
  b.concat Formatter.one_line

/-- Split a character list at every occurrence of the given character
(kernel-executable analogue of `String.splitOn` for a single character). -/
def splitChars (c : Char) : List Char → List (List Char)
  | [] => [[]]
  | a :: rest =>
    match splitChars c rest with
    | [] => [[]]
    | w :: ws => if a == c then [] :: w :: ws else (a :: w) :: ws

/-- SQL keywords highlighted by the modelled colorizer. -/
def sqlKeywords : List String :=
  ["SELECT", "FROM", "WHERE", "AND", "GROUP", "BY", "HAVING", "ORDER", "LIMIT",
   "OFFSET", "JOIN", "INNER", "LEFT", "RIGHT", "CROSS", "ON", "WITH", "UNION",
   "INTERSECT", "EXCEPT", "AS"]

/-- ANSI color code opening a highlighted keyword. -/
def blueCode : String := "\x1b[34m"

/-- ANSI color code closing a highlighted keyword. -/
def resetCode : String := "\x1b[0m"

/-- Wrap a single word in terminal color codes when it is an SQL keyword. -/
def colorizeWord (w : String) : String :=
  if w ∈ sqlKeywords then blueCode ++ w ++ resetCode else w

/-- Colorize one line by wrapping its keyword words. -/
def colorizeLine (line : List Char) : String :=
  joinSep " " ((splitChars ' ' line).map fun w => colorizeWord ⟨w⟩)

/-- Modelled from the spec: `fmt::colorize` wraps SQL keywords of the rendered
text in terminal color codes (the `fmt` module is not under src/). -/
def colorize (text : String) : String :=
  joinSep "\n" ((splitChars '\n' text.data).map colorizeLine)

/-- Embedding of `SelectBuilder::debug`: prints the colorized multi-line render
and returns the builder; the pair is (printed text, returned builder). -/
def SelectBuilder.debug (b : SelectBuilder) : String × SelectBuilder :=
  (colorize (b.concat Formatter.multi_line), b)

/-- Embedding of `SelectBuilder::print`: prints the colorized one-line render
and returns the builder; the pair is (printed text, returned builder). -/
def SelectBuilder.print (b : SelectBuilder) : String × SelectBuilder :=
  (colorize (b.concat Formatter.one_line), b)

/-- Embedding of `impl Display for SelectBuilder`: writes `self.as_string()`. -/
def displayFmt (b : SelectBuilder) : String :=
  b.as_string

/-- Embedding of `impl Debug for SelectBuilder`: writes the colorized
multi-line render. -/
def debugFmt (b : SelectBuilder) : String :=
  colorize (b.concat Formatter.multi_line)

/-- The ASCII escape character that starts every terminal color code. -/
def escChar : Char := Char.ofNat 27

/-- Whether a string contains the escape character of terminal color codes. -/
def hasEsc (s : String) : Bool :=
  s.data.any fun ch => ch == escChar

/-- All caller-supplied fragments stored in the builder are free of the
terminal escape character. -/
def NoEscFragments (b : SelectBuilder) : Prop :=
  (∀ x ∈ b._select, hasEsc x = false) ∧
  (∀ x ∈ b._from, hasEsc x = false) ∧
  (∀ x ∈ b._join, hasEsc x = false) ∧
  (∀ x ∈ b._where, hasEsc x = false) ∧
  (∀ x ∈ b._group_by, hasEsc x = false) ∧
  (∀ x ∈ b._having, hasEsc x = false) ∧
  (∀ x ∈ b._order_by, hasEsc x = false) ∧
  (∀ x ∈ b._raw, hasEsc x = false) ∧
  (∀ p ∈ b._raw_before, hasEsc p.2 = false) ∧
  (∀ p ∈ b._raw_after, hasEsc p.2 = false) ∧
  hasEsc b._limit = false ∧ hasEsc b._offset = false

/-- Decidability of the no-escape-character predicate, so that concrete
builders can be checked by evaluation. -/
instance (b : SelectBuilder) : Decidable (NoEscFragments b) := by
  unfold NoEscFragments
  infer_instance

/-! Helper lemmas about `List.dropWhile`, used to show that trimming is
idempotent. -/

lemma dropWhile_dropWhile_eq {α : Type} (p : α → Bool) (l : List α) :
    (l.dropWhile p).dropWhile p = l.dropWhile p := by
  induction l with
  | nil => rfl
  | cons a l ih =>
    by_cases h : p a = true
    · simp [List.dropWhile_cons, h, ih]
    · simp [List.dropWhile_cons, h]

lemma head?_dropWhile_false {α : Type} (p : α → Bool) (l : List α) {a : α}
    (h : (l.dropWhile p).head? = some a) : p a = false := by
  induction l with
  | nil => simp at h
  | cons x l ih =>
    rw [List.dropWhile_cons] at h
    by_cases hx : p x = true
    · rw [if_pos hx] at h
      exact ih h
    · rw [if_neg hx] at h
      obtain rfl : x = a := by simpa using h
      simpa using hx

lemma dropWhile_eq_self_of_head {α : Type} (p : α → Bool) (l : List α)
    (h : ∀ a, l.head? = some a → p a = false) : l.dropWhile p = l := by
  cases l with
  | nil => rfl
  | cons x l => simp [List.dropWhile_cons, h x rfl]

lemma getLast?_dropWhile {α : Type} (p : α → Bool) (l : List α)
    (h : l.dropWhile p ≠ []) : (l.dropWhile p).getLast? = l.getLast? := by
  induction l with
  | nil => rfl
  | cons x l ih =>
    rw [List.dropWhile_cons]
    by_cases hx : p x = true
    · rw [if_pos hx]
      have h' : l.dropWhile p ≠ [] := by rwa [List.dropWhile_cons, if_pos hx] at h
      rw [ih h']
      cases l with
      | nil => simp at h'
      | cons y l => rw [List.getLast?_cons_cons]
    · rw [if_neg hx]

lemma trimAux_leftClean {α : Type} (p : α → Bool) (l : List α) :
    (((l.dropWhile p).reverse.dropWhile p).reverse).dropWhile p
      = ((l.dropWhile p).reverse.dropWhile p).reverse := by
  apply dropWhile_eq_self_of_head
  intro a ha
  rw [List.head?_reverse] at ha
  have hwne : (l.dropWhile p).reverse.dropWhile p ≠ [] := by
    intro h0
    rw [h0] at ha
    simp at ha
  have h1 := getLast?_dropWhile p (l.dropWhile p).reverse hwne
  rw [List.getLast?_reverse] at h1
  exact head?_dropWhile_false p l (h1.symm.trans ha)

lemma trimAux_idem (d : List Char) :
    (((((((d.dropWhile Char.isWhitespace).reverse.dropWhile
        Char.isWhitespace).reverse).dropWhile Char.isWhitespace).reverse).dropWhile
        Char.isWhitespace).reverse)
      = ((d.dropWhile Char.isWhitespace).reverse.dropWhile Char.isWhitespace).reverse := by
  have h2 := trimAux_leftClean Char.isWhitespace d
  rw [h2, List.reverse_reverse, dropWhile_dropWhile_eq]

/-- Trimming is idempotent: trimming an already trimmed string changes
nothing. -/
theorem strTrim_idem (s : String) : strTrim (strTrim s) = strTrim s :=
  congrArg String.mk (trimAux_idem s.data)

/-! Helper lemmas about `push_unique`. -/

lemma push_unique_of_mem (l : List String) (v : String) (h : strTrim v ∈ l) :
    push_unique l v = l := by
  simp [push_unique, h]

lemma push_unique_idem (l : List String) (v : String) :
    push_unique (push_unique l v) v = push_unique l v := by
  by_cases h : strTrim v ∈ l
  · simp [push_unique, h]
  · simp [push_unique, h]

lemma push_unique_strTrim (l : List String) (x : String) :
    push_unique l (strTrim x) = if strTrim x ∈ l then l else l ++ [strTrim x] := by
  simp [push_unique, strTrim_idem]

/-! Helper lemmas about the escape character and joining. -/

lemma strData_append (a b : String) : (a ++ b).data = a.data ++ b.data := rfl

lemma hasEsc_append (a b : String) : hasEsc (a ++ b) = (hasEsc a || hasEsc b) := by
  simp [hasEsc, strData_append, List.any_append]

lemma hasEsc_joinSep {sep : String} {l : List String} (hsep : hasEsc sep = false)
    (h : ∀ x ∈ l, hasEsc x = false) : hasEsc (joinSep sep l) = false := by
  induction l with
  | nil => rfl
  | cons x xs ih =>
    cases xs with
    | nil => exact h x (by simp)
    | cons y ys =>
      have hx := h x (by simp)
      have hrest : ∀ z ∈ y :: ys, hasEsc z = false := fun z hz => h z (by simp [hz])
      show hasEsc (x ++ sep ++ joinSep sep (y :: ys)) = false
      rw [hasEsc_append, hasEsc_append, hx, hsep, ih hrest]
      rfl

lemma hasEsc_keyword_block {kw sep : String} {l : List String}
    (hkw : hasEsc kw = false) (hsep : hasEsc sep = false)
    (h : ∀ x ∈ l, hasEsc x = false) : hasEsc (kw ++ joinSep sep l) = false := by
  rw [hasEsc_append, hkw, hasEsc_joinSep hsep h]
  rfl

/-- Every rendered block of a clause (anchors and body) is free of the escape
character when all stored fragments are. -/
lemma clauseBlock_noEsc (b : SelectBuilder) (h : NoEscFragments b) (c : SelectClause) :
    ∀ s ∈ rawBeforeOf b c ++ clauseBody b c ++ rawAfterOf b c, hasEsc s = false := by
  obtain ⟨hsel, hfrom, hjoin, hwhere, hgroup, hhaving, horder, hraw, hbefore, hafter,
    hlimit, hoffset⟩ := h
  intro s hs
  rcases List.mem_append.1 hs with hs' | hs'
  · rcases List.mem_append.1 hs' with hb | hbody
    · obtain ⟨p, hp, rfl⟩ := List.mem_map.1 hb
      exact hbefore p (List.mem_filter.1 hp).1
    · cases c with
      | Raw => exact hraw s hbody
      | With => simp [clauseBody] at hbody
      | Select =>
        by_cases hempty : b._select = [] <;> simp [clauseBody, hempty] at hbody
        subst hbody
        exact hasEsc_keyword_block (by decide) (by decide) hsel
      | From =>
        by_cases hempty : b._from = [] <;> simp [clauseBody, hempty] at hbody
        subst hbody
        exact hasEsc_keyword_block (by decide) (by decide) hfrom
      | Join => exact hjoin s hbody
      | Where =>
        by_cases hempty : b._where = [] <;> simp [clauseBody, hempty] at hbody
        subst hbody
        exact hasEsc_keyword_block (by decide) (by decide) hwhere
      | GroupBy =>
        by_cases hempty : b._group_by = [] <;> simp [clauseBody, hempty] at hbody
        subst hbody
        exact hasEsc_keyword_block (by decide) (by decide) hgroup
      | Having =>
        by_cases hempty : b._having = [] <;> simp [clauseBody, hempty] at hbody
        subst hbody
        exact hasEsc_keyword_block (by decide) (by decide) hhaving
      | OrderBy =>
        by_cases hempty : b._order_by = [] <;> simp [clauseBody, hempty] at hbody
        subst hbody
        exact hasEsc_keyword_block (by decide) (by decide) horder
      | Limit =>
        by_cases hempty : b._limit = "" <;> simp [clauseBody, hempty] at hbody
        subst hbody
        rw [hasEsc_append, hlimit]
        decide
      | Offset =>
        by_cases hempty : b._offset = "" <;> simp [clauseBody, hempty] at hbody
        subst hbody
        rw [hasEsc_append, hoffset]
        decide
  · obtain ⟨p, hp, rfl⟩ := List.mem_map.1 hs'
    exact hafter p (List.mem_filter.1 hp).1

/-- The plain one-line render introduces no terminal escape character. -/
lemma as_string_noEsc (b : SelectBuilder) (h : NoEscFragments b) :
    hasEsc b.as_string = false := by
  show hasEsc (joinSep " " (renderParts b)) = false
  apply hasEsc_joinSep (by decide)
  intro s hs
  simp only [renderParts] at hs
  obtain ⟨c, _, hc⟩ := List.mem_flatMap.1 hs
  exact clauseBlock_noEsc b h c s hc

/-! Helper lemmas for insertion-order reasoning. -/

lemma foldl_select_eq (xs : List String) (b : SelectBuilder) :
    xs.foldl SelectBuilder.select b
      = { b with _select := xs.foldl (fun l x => push_unique l (strTrim x)) b._select } := by
  induction xs generalizing b with
  | nil => rfl
  | cons x xs ih =>
    rw [List.foldl_cons, List.foldl_cons, ih]
    rfl

lemma foldl_order_by_eq (xs : List String) (b : SelectBuilder) :
    xs.foldl SelectBuilder.order_by b
      = { b with _order_by := xs.foldl (fun l x => push_unique l (strTrim x)) b._order_by } := by
  induction xs generalizing b with
  | nil => rfl
  | cons x xs ih =>
    rw [List.foldl_cons, List.foldl_cons, ih]
    rfl

lemma foldl_push_nodup (xs : List String) (acc : List String)
    (h : (acc ++ xs.map strTrim).Nodup) :
    xs.foldl (fun l x => push_unique l (strTrim x)) acc = acc ++ xs.map strTrim := by
  induction xs generalizing acc with
  | nil => simp
  | cons x xs ih =>
    simp only [List.map_cons] at h
    have hnotmem : strTrim x ∉ acc := by
      rw [List.nodup_append] at h
      exact fun hm => h.2.2 hm (by simp)
    have h' : ((acc ++ [strTrim x]) ++ xs.map strTrim).Nodup := by
      simpa [List.append_assoc] using h
    rw [List.foldl_cons, push_unique_strTrim, if_neg hnotmem, ih _ h']
    simp

/-- Rendering a builder whose only populated clause is the SELECT list. -/
lemma as_string_only_select (L : List String) (hL : L ≠ []) :
    SelectBuilder.as_string { SelectBuilder.new with _select := L }
      = "SELECT " ++ joinSep ", " L := by
  show joinSep " " (renderParts { SelectBuilder.new with _select := L })
      = "SELECT " ++ joinSep ", " L
  simp [renderParts, clauseOrder, rawBeforeOf, rawAfterOf, clauseBody, SelectBuilder.new, hL,
    joinSep]

/-- C1: pushing a fragment twice to the same dedup clause (select, from,
where_clause, group_by, having, order_by, raw) yields a builder whose rendered
output equals the one obtained by pushing it once; the duplicate is silently
dropped, never an error. -/
theorem unique_push_idempotent (b : SelectBuilder) (F : String) :
    ((b.select F).select F).as_string = (b.select F).as_string ∧
    ((b.«from» F).«from» F).as_string = (b.«from» F).as_string ∧
    ((b.where_clause F).where_clause F).as_string = (b.where_clause F).as_string ∧
    ((b.group_by F).group_by F).as_string = (b.group_by F).as_string ∧
    ((b.having F).having F).as_string = (b.having F).as_string ∧
    ((b.order_by F).order_by F).as_string = (b.order_by F).as_string ∧
    ((b.raw F).raw F).as_string = (b.raw F).as_string := by
  refine ⟨?_, ?_, ?_, ?_, ?_, ?_, ?_⟩ <;>
  · apply congrArg SelectBuilder.as_string
    simp [SelectBuilder.select, SelectBuilder.«from», SelectBuilder.where_clause,
      SelectBuilder.group_by, SelectBuilder.having, SelectBuilder.order_by,
      SelectBuilder.raw, push_unique_idem]

/-- C2: limit and offset are scalar overwrites with last-write-wins semantics;
in particular limit "100" followed by limit "200" renders only LIMIT 200. -/
theorem limit_offset_overwrite (b : SelectBuilder) (n₁ n₂ : String) :
    (b.limit n₁).limit n₂ = b.limit n₂ ∧
    (b.offset n₁).offset n₂ = b.offset n₂ ∧
    (((SelectBuilder.new.select "*").«from» "t").limit "100" |>.limit "200").as_string
      = "SELECT * FROM t LIMIT 200" :=
  ⟨rfl, rfl, by decide⟩

/-- C3 counterexample: the text printed by `print` is not the multi-line
colorized rendering; `print` uses the one-line formatter
(`src/select/select.rs` line 185). -/
theorem print_is_not_multi_line :
    ((SelectBuilder.new.select "a").«from» "t").print.1
      ≠ colorize (((SelectBuilder.new.select "a").«from» "t").concat Formatter.multi_line) := by
  decide

/-- C3 amended: `print` prints the one-line rendering and `debug` the
multi-line rendering, both with SQL keywords wrapped in terminal color codes;
the plain `as_string` render output never contains the escape character of
color codes (when the caller-supplied fragments do not contain it). -/
theorem print_one_line_debug_multi_line (b : SelectBuilder) (h : NoEscFragments b) :
    b.print.1 = colorize (b.concat Formatter.one_line) ∧
    b.debug.1 = colorize (b.concat Formatter.multi_line) ∧
    hasEsc b.as_string = false :=
  ⟨rfl, rfl, as_string_noEsc b h⟩

/-- C3 amended, witness at a concrete builder. -/
theorem print_one_line_debug_multi_line_witness :
    (SelectBuilder.new.select "a").print.1
      = colorize ((SelectBuilder.new.select "a").concat Formatter.one_line) ∧
    (SelectBuilder.new.select "a").debug.1
      = colorize ((SelectBuilder.new.select "a").concat Formatter.multi_line) ∧
    hasEsc (SelectBuilder.new.select "a").as_string = false :=
  print_one_line_debug_multi_line (SelectBuilder.new.select "a") (by decide)

/-- C4: `and` is a pure synonym for `where_clause`, and at render time
multiple WHERE fragments are joined with the literal keyword AND. -/
theorem and_is_where_clause (b : SelectBuilder) (c : String) :
    b.and c = b.where_clause c ∧
    (((SelectBuilder.new.«from» "t").where_clause "a=1").and "b=2").as_string
      = "FROM t WHERE a=1 AND b=2" :=
  ⟨rfl, by decide⟩

/-- C5: join helpers prepend their keyword to the trimmed table text before
the unique push, so dedup is decided by equality of the full composed join
text: the same join kind twice with identical text renders once, while
differing join kinds on the same table text both render. -/
theorem join_keyword_composed_dedup (b : SelectBuilder) (t : String) :
    (b.cross_join t).cross_join t = b.cross_join t ∧
    (b.inner_join t).inner_join t = b.inner_join t ∧
    (b.left_join t).left_join t = b.left_join t ∧
    (b.right_join t).right_join t = b.right_join t ∧
    (b.inner_join t)._join = push_unique b._join ("INNER JOIN " ++ strTrim t) ∧
    (((SelectBuilder.new.«from» "a").inner_join "t ON c").inner_join "t ON c").as_string
      = "FROM a INNER JOIN t ON c" ∧
    (((SelectBuilder.new.«from» "a").inner_join "t ON c").left_join "t ON c").as_string
      = "FROM a INNER JOIN t ON c LEFT JOIN t ON c" := by
  refine ⟨?_, ?_, ?_, ?_, rfl, by decide, by decide⟩ <;>
  · simp [SelectBuilder.cross_join, SelectBuilder.inner_join, SelectBuilder.left_join,
      SelectBuilder.right_join, push_unique_idem]

/-- C6: `raw` appends with dedup-unique semantics (the same raw text twice
renders once), while `raw_before` and `raw_after` append to an ordered
non-deduped list (the same entry twice is stored twice, in call order, and
renders twice). -/
theorem raw_unique_anchors_not_deduped (b : SelectBuilder) (t : String) (c : SelectClause) :
    (b.raw t).raw t = b.raw t ∧
    ((b.raw_before c t).raw_before c t)._raw_before
      = b._raw_before ++ [(c, strTrim t), (c, strTrim t)] ∧
    ((b.raw_after c t).raw_after c t)._raw_after
      = b._raw_after ++ [(c, strTrim t), (c, strTrim t)] ∧
    (((SelectBuilder.new.«from» "t").raw_after SelectClause.From "X").raw_after
        SelectClause.From "X").as_string = "FROM t X X" ∧
    (((SelectBuilder.new.raw "Y").raw "Y").«from» "t").as_string = "Y FROM t" := by
  refine ⟨?_, ?_, ?_, by decide, by decide⟩
  · simp [SelectBuilder.raw, push_unique_idem]
  · simp [SelectBuilder.raw_before]
  · simp [SelectBuilder.raw_after]

/-- C7: a raw anchor renders even when the anchored clause produced no body
output: with no WHERE fragment, a raw_before Where anchor still contributes
its text to the rendered blocks, and concretely renders in the output. -/
theorem anchor_renders_on_empty_clause (b : SelectBuilder) (X : String)
    (h : b._where = []) :
    clauseBody (b.raw_before SelectClause.Where X) SelectClause.Where = [] ∧
    strTrim X ∈ renderParts (b.raw_before SelectClause.Where X) ∧
    (SelectBuilder.new.raw_before SelectClause.Where "X").as_string = "X" := by
  refine ⟨?_, ?_, by decide⟩
  · simp [clauseBody, SelectBuilder.raw_before, h]
  · simp only [renderParts]
    rw [List.mem_flatMap]
    refine ⟨SelectClause.Where, by simp [clauseOrder], ?_⟩
    have hmem : strTrim X ∈ rawBeforeOf (b.raw_before SelectClause.Where X)
        SelectClause.Where := by
      refine List.mem_map.2 ⟨(SelectClause.Where, strTrim X), List.mem_filter.2 ⟨?_, ?_⟩, rfl⟩
      · exact List.mem_append_right _ (by simp [SelectBuilder.raw_before])
      · rfl
    exact List.mem_append_left _ (List.mem_append_left _ hmem)

/-- C7, witness at the empty builder. -/
theorem anchor_renders_on_empty_clause_witness :
    clauseBody (SelectBuilder.new.raw_before SelectClause.Where "X") SelectClause.Where = [] ∧
    strTrim "X" ∈ renderParts (SelectBuilder.new.raw_before SelectClause.Where "X") ∧
    (SelectBuilder.new.raw_before SelectClause.Where "X").as_string = "X" :=
  anchor_renders_on_empty_clause SelectBuilder.new "X" rfl

/-- C8: debug and print return the builder with its accumulated state
unchanged, so inserting them mid-chain yields render output identical to
omitting them. -/
theorem debug_print_leave_state_unchanged (b : SelectBuilder)
    (rest : SelectBuilder → SelectBuilder) :
    b.debug.2 = b ∧ b.print.2 = b ∧
    (rest b.debug.2).as_string = (rest b).as_string ∧
    (rest b.print.2).as_string = (rest b).as_string :=
  ⟨rfl, rfl, rfl, rfl⟩

/-- C9: within one clause, fragments render in first-push order: pushing a
sequence of distinct fragments onto select (resp. order_by) stores exactly the
trimmed inputs in push order, the rendered SELECT body lists them in that
order, and a dropped duplicate leaves the stored sequence unchanged. -/
theorem fragments_render_in_first_push_order (xs : List String)
    (h : (xs.map strTrim).Nodup) (hne : xs ≠ []) :
    (xs.foldl SelectBuilder.select SelectBuilder.new)._select = xs.map strTrim ∧
    (xs.foldl SelectBuilder.order_by SelectBuilder.new)._order_by = xs.map strTrim ∧
    (xs.foldl SelectBuilder.select SelectBuilder.new).as_string
      = "SELECT " ++ joinSep ", " (xs.map strTrim) ∧
    (∀ l v, strTrim v ∈ l → push_unique l v = l) := by
  have hsel : (xs.foldl SelectBuilder.select SelectBuilder.new)._select = xs.map strTrim := by
    rw [foldl_select_eq]
    exact foldl_push_nodup xs [] (by simpa using h)
  have hord : (xs.foldl SelectBuilder.order_by SelectBuilder.new)._order_by
      = xs.map strTrim := by
    rw [foldl_order_by_eq]
    exact foldl_push_nodup xs [] (by simpa using h)
  refine ⟨hsel, hord, ?_, fun l v hv => push_unique_of_mem l v hv⟩
  have hb : xs.foldl SelectBuilder.select SelectBuilder.new
      = { SelectBuilder.new with _select := xs.map strTrim } := by
    rw [foldl_select_eq]
    exact congrArg (fun L => { SelectBuilder.new with _select := L })
      (foldl_push_nodup xs [] (by simpa using h))
  rw [hb]
  exact as_string_only_select (xs.map strTrim) (by simp [hne])

/-- C9, witness at a concrete two-fragment push sequence. -/
theorem fragments_render_in_first_push_order_witness :
    (["b", "a"].foldl SelectBuilder.select SelectBuilder.new)._select
      = ["b", "a"].map strTrim ∧
    (["b", "a"].foldl SelectBuilder.order_by SelectBuilder.new)._order_by
      = ["b", "a"].map strTrim ∧
    (["b", "a"].foldl SelectBuilder.select SelectBuilder.new).as_string
      = "SELECT " ++ joinSep ", " (["b", "a"].map strTrim) ∧
    (∀ l v, strTrim v ∈ l → push_unique l v = l) :=
  fragments_render_in_first_push_order ["b", "a"] (by decide) (by decide)

/-- C10: the Display implementation produces exactly the string returned by
as_string (the plain one-line rendering). -/
theorem display_is_as_string (b : SelectBuilder) :
    displayFmt b = b.as_string ∧ displayFmt b = b.concat Formatter.one_line :=
  ⟨rfl, rfl⟩
